import Mathlib

/-!
Verification of the blockchain synchronization engine of this repository
(`Homework-3/bitcoin_sync_manager.py` and `Homework-3/llm_validator.py`)
against its design specification.

The Python code is shallowly embedded as executable Lean definitions:

* JSON block payloads become `BlockPayload` / `TxPayload` / `VinPayload` /
  `VoutPayload` records whose fields are `Option`-typed, mirroring the
  presence/absence of dictionary keys (`d['k']` accesses that can raise
  `KeyError` are embedded as `Option` matches whose `none` branch aborts
  the enclosing SQLite transaction, exactly as the Python exception
  handler does).
* The SQLite database becomes a `DB` record of row lists, one list per
  table (`blocks`, `transactions`, `transaction_inputs`,
  `transaction_outputs`, and the singleton `sync_status` row with
  `id = 1`, the only id the code ever writes).  `INSERT OR REPLACE` is
  embedded as "remove the rows that collide on a uniqueness constraint,
  then append"; plain `INSERT` is an append.  The Python `sqlite3` module
  leaves `PRAGMA foreign_keys` off, so the schema's `ON DELETE CASCADE`
  clauses never fire; the embedding therefore performs no cascade on
  `REPLACE`.  Columns whose value is copied verbatim from the payload and
  never read back by the code under verification (script blobs, witness
  data, `CURRENT_TIMESTAMP` bookkeeping columns) are projected out.
* A function whose Python body catches every exception and rolls the
  transaction back is embedded as an `Option`-valued body plus a wrapper
  that maps `none` to `(false, original state)`.
-/

/-- Sync configuration (`Config` dataclass); only the fields consulted by
the validation gate are carried. -/
structure Config where
  use_llm_validation : Bool
  llm_api_key : String
deriving DecidableEq, Repr

/-- One entry of a transaction's `vin` list.  `txid`/`vout` reference a
previous output, `coinbase` is the coinbase marker; any key may be absent. -/
structure VinPayload where
  txid : Option String
  vout : Option Int
  coinbase : Option String
  seqn : Option Int
deriving DecidableEq, Repr

/-- One entry of a transaction's `vout` list. -/
structure VoutPayload where
  value : Option Rat
  n : Option Int
deriving DecidableEq, Repr

/-- A transaction dictionary inside a block payload.  `vin`/`vout` are
`Option` lists so that an absent key (read via `.get('vin', default)`)
is distinguished from a present empty list. -/
structure TxPayload where
  txid : Option String
  hash : Option String
  fee : Option Rat
  vin : Option (List VinPayload)
  vout : Option (List VoutPayload)
deriving DecidableEq, Repr

/-- A block payload as returned by `getblock(hash, verbosity=2)`. -/
structure BlockPayload where
  hash : Option String
  height : Option Int
  time : Option Int
  merkleroot : Option String
  nTx : Option Int
  size : Option Int
  previousblockhash : Option String
  tx : Option (List TxPayload)
deriving DecidableEq, Repr

/-- A row of the `blocks` table (payload-copied columns that no code under
verification reads back are projected out). -/
structure BlockRow where
  hash : String
  height : Option Int
  time : Option Int
  merkleroot : Option String
  nTx : Option Int
  size : Option Int
  previousblockhash : Option String
  sync_status : String
deriving DecidableEq, Repr

/-- A row of the `transactions` table. -/
structure TxRow where
  block_hash : String
  txid : String
  hash : String
  fee : Option Rat
  sync_status : String
deriving DecidableEq, Repr

/-- A row of the `transaction_inputs` table; the AUTOINCREMENT `id` is
represented by the position of the row in the list. -/
structure InputRow where
  txid : String
  input_index : Nat
  prev_txid : Option String
  vout : Option Int
  coinbase : Option String
  seqn : Option Int
deriving DecidableEq, Repr

/-- A row of the `transaction_outputs` table. -/
structure OutputRow where
  txid : String
  value : Option Rat
  n : Option Int
deriving DecidableEq, Repr

/-- The singleton `sync_status` row (`id = 1`); `last_sync_time` is a
`CURRENT_TIMESTAMP` bookkeeping column and is projected out. -/
structure SyncStatusRow where
  last_sync_height : Int
  last_sync_hash : String
deriving DecidableEq, Repr

/-- The visible state of the SQLite store: one row list per table. -/
@[ext]
structure DB where
  blocks : List BlockRow
  transactions : List TxRow
  transaction_inputs : List InputRow
  transaction_outputs : List OutputRow
  sync_status : Option SyncStatusRow
deriving DecidableEq, Repr

/-- The empty store, as produced by `_create_schema`. -/
def emptyDB : DB :=
  { blocks := [], transactions := [], transaction_inputs := [],
    transaction_outputs := [], sync_status := none }

/-- `DataValidator.validate_block_structure`: accumulates error strings in
the source's order and returns `(errors == [], errors)`.  The
`isinstance` checks are subsumed by the typed embedding; the remaining
content of each check is kept. -/
def validate_block_structure (b : BlockPayload) : Bool × List String :=
  let e1 :=
    (if b.hash.isNone then ["Missing required field: hash"] else []) ++
    (if b.height.isNone then ["Missing required field: height"] else []) ++
    (if b.time.isNone then ["Missing required field: time"] else []) ++
    (if b.merkleroot.isNone then ["Missing required field: merkleroot"] else []) ++
    (if b.tx.isNone then ["Missing required field: tx"] else [])
  let e2 := match b.hash with
    | some h => if h.length ≠ 64 then ["Invalid block hash format"] else []
    | none => []
  let e3 := match b.height with
    | some ht => if ht < 0 then ["Invalid block height"] else []
    | none => []
  let e4 := match b.tx, b.nTx with
    | some l, some n => if (l.length : Int) ≠ n then ["Transaction count mismatch"] else []
    | _, _ => []
  let errors := e1 ++ e2 ++ e3 ++ e4
  (errors.isEmpty, errors)

/-- `LLMDataTransformer.__init__`: the advisory path is enabled only when
`use_llm_validation` is set and the API key is non-empty
(`bool(config.llm_api_key)`). -/
def llm_transformer_enabled (c : Config) : Bool :=
  c.use_llm_validation && !(c.llm_api_key == "")

/-- `LLMDataTransformer._execute_deterministic_validation`: the checks run
on the advisory (enabled) path. -/
def execute_deterministic_validation (d : BlockPayload) : Bool :=
  (match d.hash with
   | some h => !(h == "") && h.length == 64
   | none => true) &&
  (match d.tx, d.nTx with
   | some l, some n => (l.length : Int) == n
   | _, _ => true) &&
  ((d.tx.getD []).all fun t =>
    match t.txid with
    | some tid => !(tid == "") && tid.length == 64
    | none => false)

/-- `LLMDataTransformer.validate_transformation`: when the transformer is
not enabled it returns `(True, "LLM validation disabled")` without
consulting the payload; when enabled it runs
`_execute_deterministic_validation` (none of whose operations can raise,
so the `except` branch that would call `_fallback_validation` is dead). -/
def validate_transformation (enabled : Bool) (d : BlockPayload) : Bool × String :=
  if !enabled then (true, "LLM validation disabled")
  else (execute_deterministic_validation d, "LLM-assisted validation completed")

/-- Does a transaction dictionary contain a coinbase-marked input
(`'coinbase' in vin` over `tx.get('vin', [])`)? -/
def hasCoinbaseInput (t : TxPayload) : Bool :=
  (t.vin.getD []).any fun v => v.coinbase.isSome

/-- `LLMDataValidator._validate_coinbase_transaction`.  The Python reads
`transactions[0].get('vin', [{}])[0]`: an absent `vin` key yields the
dummy `{}` (no coinbase marker), while a present empty list raises
`IndexError`, embedded as `none`. -/
def validate_coinbase_transaction : List TxPayload → Option Bool
  | [] => some false
  | t :: rest =>
    let firstCb : Option Bool :=
      match t.vin with
      | none => some false
      | some [] => none
      | some (v :: _) => some v.coinbase.isSome
    match firstCb with
    | none => none
    | some false => some false
    | some true => some (!(rest.any hasCoinbaseInput))

/-- Boolean string-list membership used to state which `txid`s a pass over
a payload's transaction list replaces. -/
def memS (a : String) : List String → Bool
  | [] => false
  | x :: xs => (x == a) || memS a xs

/-- The `txid`s declared by a transaction list (present keys only). -/
def txidsOf (ts : List TxPayload) : List String :=
  ts.filterMap TxPayload.txid

/-- The `blocks` row written by `DatabaseManager._insert_block` for a
payload whose `'hash'` key holds `h` (`sync_status` is the literal
`'synced'`). -/
def mkBlockRow (h : String) (p : BlockPayload) : BlockRow :=
  { hash := h, height := p.height, time := p.time, merkleroot := p.merkleroot,
    nTx := p.nTx, size := p.size, previousblockhash := p.previousblockhash,
    sync_status := "synced" }

/-- Do two `blocks` rows collide on the `height INTEGER UNIQUE` constraint?
SQLite's UNIQUE ignores NULLs. -/
def heightCollides (b row : BlockRow) : Bool :=
  match b.height, row.height with
  | some a, some c => a == c
  | _, _ => false

/-- `INSERT OR REPLACE INTO blocks`: drop every row that collides with the
new row on the `hash` primary key or the `height` UNIQUE constraint,
then append the new row. -/
def replaceBlockRow (bs : List BlockRow) (row : BlockRow) : List BlockRow :=
  bs.filter (fun b => !((b.hash == row.hash) || heightCollides b row)) ++ [row]

/-- The `transactions` row written by `DatabaseManager._insert_transaction`
(`hash` defaults to the txid: `tx_data.get('hash', tx_data['txid'])`). -/
def mkTxRow (blockHash tid : String) (t : TxPayload) : TxRow :=
  { block_hash := blockHash, txid := tid, hash := t.hash.getD tid,
    fee := t.fee, sync_status := "synced" }

/-- The `transaction_inputs` rows appended for one transaction:
`enumerate(tx_data.get('vin', []))` starting at index `i`. -/
def mkInputRows (tid : String) (i : Nat) : List VinPayload → List InputRow
  | [] => []
  | v :: vs =>
    { txid := tid, input_index := i, prev_txid := v.txid, vout := v.vout,
      coinbase := v.coinbase, seqn := v.seqn } :: mkInputRows tid (i + 1) vs

/-- The `transaction_outputs` rows appended for one transaction. -/
def mkOutputRows (tid : String) (vs : List VoutPayload) : List OutputRow :=
  vs.map fun v => { txid := tid, value := v.value, n := v.n }

/-- `DatabaseManager._insert_transaction`: `INSERT OR REPLACE` of the
transaction row keyed by `txid`, then plain `INSERT` (append) of every
input and output row.  `tx_data['txid']` raises `KeyError` when absent,
aborting the enclosing transaction (`none`). -/
def insertTransaction (db : DB) (blockHash : String) (t : TxPayload) : Option DB :=
  match t.txid with
  | none => none
  | some tid =>
    some { db with
      transactions :=
        db.transactions.filter (fun r => !(r.txid == tid)) ++ [mkTxRow blockHash tid t],
      transaction_inputs :=
        db.transaction_inputs ++ mkInputRows tid 0 (t.vin.getD []),
      transaction_outputs :=
        db.transaction_outputs ++ mkOutputRows tid (t.vout.getD []) }

/-- The `for tx in block_data.get('tx', [])` loop of `insert_block_atomic`. -/
def insertTransactions (db : DB) (blockHash : String) : List TxPayload → Option DB
  | [] => some db
  | t :: ts =>
    match insertTransaction db blockHash t with
    | none => none
    | some db' => insertTransactions db' blockHash ts

/-- All input rows one pass over a transaction list appends. -/
def inputRowsOfTxs : List TxPayload → List InputRow
  | [] => []
  | t :: ts =>
    (match t.txid with
     | some tid => mkInputRows tid 0 (t.vin.getD [])
     | none => []) ++ inputRowsOfTxs ts

/-- All output rows one pass over a transaction list appends. -/
def outputRowsOfTxs : List TxPayload → List OutputRow
  | [] => []
  | t :: ts =>
    (match t.txid with
     | some tid => mkOutputRows tid (t.vout.getD [])
     | none => []) ++ outputRowsOfTxs ts

/-- The `transactions` rows one pass over a transaction list writes (in
list order). -/
def txRowsOf (bh : String) (ts : List TxPayload) : List TxRow :=
  ts.filterMap fun t => t.txid.map fun tid => mkTxRow bh tid t

/-- `DatabaseManager._verify_block_consistency`: re-read, inside the open
transaction, the number of `blocks` rows with this hash (must be 1) and
the number of `transactions` rows owned by this hash (must equal
`len(block_data.get('tx', []))`). -/
def verify_block_consistency (db : DB) (h : String) (p : BlockPayload) : Bool :=
  ((db.blocks.filter (fun b => b.hash == h)).length == 1) &&
  ((db.transactions.filter (fun t => t.block_hash == h)).length == (p.tx.getD []).length)

/-- The body of `DatabaseManager.insert_block_atomic` between
`BEGIN EXCLUSIVE` and `COMMIT`; `none` is any exception (failed
validation, `KeyError`, failed consistency verification), which the
Python handler converts into a rollback. -/
def insert_block_atomic_body (db : DB) (p : BlockPayload) : Option DB :=
  if !(validate_block_structure p).1 then none
  else match p.hash with
    | none => none
    | some h =>
      match insertTransactions { db with blocks := replaceBlockRow db.blocks (mkBlockRow h p) }
          h (p.tx.getD []) with
      | none => none
      | some db2 =>
        match p.height with
        | none => none
        | some ht =>
          if verify_block_consistency { db2 with sync_status := some ⟨ht, h⟩ } h p
          then some { db2 with sync_status := some ⟨ht, h⟩ } else none

/-- `DatabaseManager.insert_block_atomic`: commit on success, roll the
store back to its prior state and return `False` on any failure. -/
def insert_block_atomic (db : DB) (p : BlockPayload) : Bool × DB :=
  match insert_block_atomic_body db p with
  | some db' => (true, db')
  | none => (false, db)

/-- SQL `MAX` over a list of integers (`none` on the empty set). -/
def listMaxO : List Int → Option Int
  | [] => none
  | x :: xs =>
    match listMaxO xs with
    | none => some x
    | some m => some (max x m)

/-- The `height`s of the synced blocks of a store (`NULL` heights are
ignored by SQL `MAX`). -/
def syncedHeights (db : DB) : List Int :=
  (db.blocks.filter (fun b => b.sync_status == "synced")).filterMap BlockRow.height

/-- `DatabaseManager.get_latest_block_height`:
`SELECT MAX(height) FROM blocks WHERE sync_status = 'synced'`. -/
def get_latest_block_height (db : DB) : Option Int :=
  listMaxO (syncedHeights db)

/-- The `SELECT 1 FROM blocks WHERE hash = ?` query behind
`DatabaseManager.block_exists`. -/
def block_exists_query (db : DB) (h : String) : Bool :=
  db.blocks.any fun b => b.hash == h

/-- `DatabaseManager.block_exists`: the database read may fail (embedded
as an `Except` input); the `except` handler turns any failure into
`False`. -/
def block_exists (r : Except String DB) (h : String) : Bool :=
  match r with
  | Except.ok db => block_exists_query db h
  | Except.error _ => false

/-- The skip test of `BitcoinSyncManager._sync_single_block`: the unit
proceeds to fetch, validate and store the block exactly when
`block_exists` answers `False`. -/
def sync_single_block_fetches (r : Except String DB) (h : String) : Bool :=
  !(block_exists r h)

/-- Is a block row at height `≥ h0` (Boolean form of the
`height >= (SELECT height ...)` predicate; a NULL height never
compares ≥)? -/
def heightGeB (b : BlockRow) (h0 : Int) : Bool :=
  match b.height with
  | some hb => decide (h0 ≤ hb)
  | none => false

/-- Flip a block row's status to `'orphaned'`. -/
def orphanBlock (b : BlockRow) : BlockRow :=
  { b with sync_status := "orphaned" }

/-- Flip a transaction row's status to `'orphaned'`. -/
def orphanTx (t : TxRow) : TxRow :=
  { t with sync_status := "orphaned" }

/-- `DatabaseManager.handle_reorg`: under one exclusive transaction, set
`sync_status = 'orphaned'` on every `blocks` row whose hash equals the
given hash or whose height is `≥` the height stored for that hash
(scalar subquery on the `hash` primary key, NULL when the hash is
absent), then set `'orphaned'` on every `transactions` row whose
`block_hash` belongs to an orphaned block.  No row is deleted. -/
def handle_reorg (db : DB) (invalidHash : String) : Bool × DB :=
  let subq : Option Int :=
    match db.blocks.find? (fun b => b.hash == invalidHash) with
    | some b => b.height
    | none => none
  let newBlocks := db.blocks.map fun b =>
    if (b.hash == invalidHash) ||
       (match subq with
        | some h0 => heightGeB b h0
        | none => false) then orphanBlock b else b
  let newTxs := db.transactions.map fun t =>
    if newBlocks.any (fun b => (b.sync_status == "orphaned") && (b.hash == t.block_hash))
    then orphanTx t else t
  (true, { db with blocks := newBlocks, transactions := newTxs })

/-- The start height `BitcoinSyncManager.sync_new_blocks` fetches from:
the store's latest synced height plus one, or genesis when the store is
empty. -/
def syncStartHeight (dbHeight : Option Int) : Int :=
  match dbHeight with
  | none => 0
  | some h => h + 1

/-- The height range computation of `BitcoinSyncManager.sync_new_blocks`:
`end_height = min(start_height + 100 - 1, network_height)`, and the pass
returns without fetching when `start_height > network_height`. -/
def computeSyncRange (dbHeight : Option Int) (networkHeight : Int) : Option (Int × Int) :=
  if syncStartHeight dbHeight > networkHeight then none
  else some (syncStartHeight dbHeight,
             min (syncStartHeight dbHeight + 100 - 1) networkHeight)

/-- The fetch range of one `sync_new_blocks` pass over a given store. -/
def sync_new_blocks_range (db : DB) (networkHeight : Int) : Option (Int × Int) :=
  computeSyncRange (get_latest_block_height db) networkHeight

/-- The scan loop of `BitcoinSyncManager.check_for_reorgs` over the
recent `(height, stored hash)` pairs in height-descending order.
`remote h = none` embeds an exception from `get_block_hash(h)` (logged
and skipped); `some nh` is the hash the remote chain reports.  The
result is the stored hash passed to `handle_reorg` at the first
mismatch, or `none` when the scan finishes without divergence. -/
def reorgScan (remote : Int → Option String) : List (Int × String) → Option String
  | [] => none
  | (h, dbh) :: rest =>
    match remote h with
    | none => reorgScan remote rest
    | some nh => if nh = dbh then reorgScan remote rest else some dbh

/-- Insert a `(height, hash)` pair into a height-descending list
(`ORDER BY height DESC`). -/
def insertDescByHeight (x : Int × String) : List (Int × String) → List (Int × String)
  | [] => [x]
  | y :: ys => if y.1 ≤ x.1 then x :: y :: ys else y :: insertDescByHeight x ys

/-- Sort `(height, hash)` pairs by height descending. -/
def sortDescByHeight : List (Int × String) → List (Int × String)
  | [] => []
  | x :: xs => insertDescByHeight x (sortDescByHeight xs)

/-- The `SELECT height, hash FROM blocks WHERE height > ? AND
sync_status = 'synced' ORDER BY height DESC` query of
`check_for_reorgs`. -/
def recentSyncedBlocksDesc (db : DB) (cutoff : Int) : List (Int × String) :=
  sortDescByHeight
    ((db.blocks.filter fun b =>
        (b.sync_status == "synced") &&
        (match b.height with
         | some hb => decide (cutoff < hb)
         | none => false)).filterMap
      fun b => b.height.map fun hb => (hb, b.hash))

/-- `BitcoinSyncManager.check_for_reorgs`: scan the last
`reorg_safety_blocks` synced heights and hand the first diverging
stored hash to `handle_reorg`. -/
def check_for_reorgs (db : DB) (remote : Int → Option String) (safety : Int) : DB :=
  match get_latest_block_height db with
  | none => db
  | some dbHeight =>
    let depth := min safety dbHeight
    match reorgScan remote (recentSyncedBlocksDesc db (dbHeight - depth)) with
    | some badHash => (handle_reorg db badHash).2
    | none => db

/-- A payload with every key absent (the Python dict `{}`). -/
def pAllNone : BlockPayload :=
  { hash := none, height := none, time := none, merkleroot := none,
    nTx := none, size := none, previousblockhash := none, tx := none }

/-- A configuration with LLM validation switched on but no API key
configured. -/
def cfgNoKey : Config :=
  { use_llm_validation := true, llm_api_key := "" }

/-- A coinbase input (`{'coinbase': '00'}`). -/
def vinCoinbase : VinPayload :=
  { txid := none, vout := none, coinbase := some "00", seqn := none }

/-- A second coinbase input. -/
def vinCoinbase2 : VinPayload :=
  { txid := none, vout := none, coinbase := some "01", seqn := none }

/-- A regular (non-coinbase) input referencing a previous output. -/
def vinRegular : VinPayload :=
  { txid := some "cccccccccccccccccccccccccccccccccccccccccccccccccccccccccccccccc",
    vout := some 0, coinbase := none, seqn := none }

/-- A single output of value 50 at index 0. -/
def voutSimple : VoutPayload :=
  { value := some 50, n := some 0 }

/-- The coinbase transaction of the happy-path scenario payload. -/
def txCoinbase : TxPayload :=
  { txid := some "bbbbbbbbbbbbbbbbbbbbbbbbbbbbbbbbbbbbbbbbbbbbbbbbbbbbbbbbbbbbbbbb",
    hash := none, fee := none, vin := some [vinCoinbase], vout := some [voutSimple] }

/-- A structurally well-formed single-transaction block payload whose only
transaction's inputs carry TWO coinbase markers. -/
def pTwoCoinbase : BlockPayload :=
  { hash := some "aaaaaaaaaaaaaaaaaaaaaaaaaaaaaaaaaaaaaaaaaaaaaaaaaaaaaaaaaaaaaaaa",
    height := some 0, time := some 1,
    merkleroot := some "mmmmmmmmmmmmmmmmmmmmmmmmmmmmmmmmmmmmmmmmmmmmmmmmmmmmmmmmmmmmmmmm",
    nTx := some 1, size := some 249, previousblockhash := none,
    tx := some [{ txid := some "bbbbbbbbbbbbbbbbbbbbbbbbbbbbbbbbbbbbbbbbbbbbbbbbbbbbbbbbbbbbbbbb",
                  hash := none, fee := none,
                  vin := some [vinCoinbase, vinCoinbase2],
                  vout := some [voutSimple] }] }

/-- A transaction whose first input is not coinbase-marked. -/
def txNoCoinbase : TxPayload :=
  { txid := some "dddddddddddddddddddddddddddddddddddddddddddddddddddddddddddddddd",
    hash := none, fee := none, vin := some [vinRegular], vout := some [voutSimple] }

/-- The valid happy-path scenario payload: one coinbase transaction at
height 0. -/
def pGood : BlockPayload :=
  { hash := some "aaaaaaaaaaaaaaaaaaaaaaaaaaaaaaaaaaaaaaaaaaaaaaaaaaaaaaaaaaaaaaaa",
    height := some 0, time := some 1,
    merkleroot := some "mmmmmmmmmmmmmmmmmmmmmmmmmmmmmmmmmmmmmmmmmmmmmmmmmmmmmmmmmmmmmmmm",
    nTx := some 1, size := some 249, previousblockhash := none,
    tx := some [txCoinbase] }

/-- A valid payload at height 5. -/
def pHeight5 : BlockPayload :=
  { hash := some "cccccccccccccccccccccccccccccccccccccccccccccccccccccccccccccccc",
    height := some 5, time := some 5,
    merkleroot := some "mmmmmmmmmmmmmmmmmmmmmmmmmmmmmmmmmmmmmmmmmmmmmmmmmmmmmmmmmmmmmmmm",
    nTx := some 1, size := some 249, previousblockhash := none,
    tx := some [{ txid := some "dddddddddddddddddddddddddddddddddddddddddddddddddddddddddddddddd",
                  hash := none, fee := none, vin := some [vinCoinbase],
                  vout := some [voutSimple] }] }

/-- A valid payload at height 3 with a different hash and txid. -/
def pHeight3 : BlockPayload :=
  { hash := some "eeeeeeeeeeeeeeeeeeeeeeeeeeeeeeeeeeeeeeeeeeeeeeeeeeeeeeeeeeeeeeee",
    height := some 3, time := some 3,
    merkleroot := some "mmmmmmmmmmmmmmmmmmmmmmmmmmmmmmmmmmmmmmmmmmmmmmmmmmmmmmmmmmmmmmmm",
    nTx := some 1, size := some 249, previousblockhash := none,
    tx := some [{ txid := some "ffffffffffffffffffffffffffffffffffffffffffffffffffffffffffffffff",
                  hash := none, fee := none, vin := some [vinCoinbase],
                  vout := some [voutSimple] }] }

/-- A synced block row at the given height with the given (short, purely
symbolic) hash, for exercising the reorg handler. -/
def mkSyncedBlock (h : String) (ht : Int) : BlockRow :=
  { hash := h, height := some ht, time := some ht, merkleroot := none,
    nTx := some 0, size := none, previousblockhash := none,
    sync_status := "synced" }

/-- A store holding synced blocks at heights 0..5 (H = 5) and two
transactions owned by the blocks at heights 4 and 1. -/
def dbSixBlocks : DB :=
  { blocks := [mkSyncedBlock "h0" 0, mkSyncedBlock "h1" 1, mkSyncedBlock "h2" 2,
               mkSyncedBlock "h3" 3, mkSyncedBlock "h4" 4, mkSyncedBlock "h5" 5],
    transactions := [{ block_hash := "h4", txid := "t4", hash := "t4", fee := none,
                       sync_status := "synced" },
                     { block_hash := "h1", txid := "t1", hash := "t1", fee := none,
                       sync_status := "synced" }],
    transaction_inputs := [], transaction_outputs := [], sync_status := none }

/-- Pointwise-equal Boolean predicates give the same `any` over a list. -/
theorem list_any_congr {α : Type} {l : List α} {p q : α → Bool}
    (h : ∀ a ∈ l, p a = q a) : l.any p = l.any q := by
  induction l with
  | nil => rfl
  | cons x xs ih =>
    simp only [List.any_cons]
    rw [h x (List.mem_cons_self x xs), ih fun a ha => h a (List.mem_cons_of_mem x ha)]

/-- C1.  Atomicity of `insert_block_atomic`: whenever the call reports
failure, the visible store state (all rows of every table and the sync
cursor) is exactly the state before the call — the rollback restores
everything. -/
theorem c1_insert_failure_preserves_state (db : DB) (p : BlockPayload)
    (h : (insert_block_atomic db p).1 = false) :
    (insert_block_atomic db p).2 = db := by
  unfold insert_block_atomic at h ⊢
  cases hb : insert_block_atomic_body db p
  · rfl
  · simp [hb] at h

/-- Witness for C1 at a concrete input: inserting the empty payload into
the empty store fails and leaves the store empty. -/
theorem c1_insert_failure_preserves_state_witness :
    (insert_block_atomic emptyDB pAllNone).1 = false ∧
    (insert_block_atomic emptyDB pAllNone).2 = emptyDB :=
  ⟨by decide, c1_insert_failure_preserves_state emptyDB pAllNone (by decide)⟩

/-- C2 counterexample.  A structurally well-formed payload whose single
transaction carries TWO coinbase-marked inputs is accepted by
`DataValidator.validate_block_structure` (which performs no coinbase
check at all) and also passes
`LLMDataValidator._validate_coinbase_transaction`, so the claim that the
Structural Validator rejects every payload with more than one
coinbase-marked input is false. -/
theorem c2_counterexample :
    validate_block_structure pTwoCoinbase = (true, []) ∧
    validate_coinbase_transaction (pTwoCoinbase.tx.getD []) = some true := by
  constructor
  · decide
  · decide

/-- C2 amended.  What the code actually checks: the structural validator
has no coinbase rule; the LLM validator's coinbase check rejects an
empty transaction list, and for a first transaction whose `vin` list is
present and non-empty it accepts exactly when the first input is
coinbase-marked and no later transaction has any coinbase-marked input —
extra coinbase markers inside transaction 0 are not detected. -/
theorem c2_amended_coinbase_check :
    validate_coinbase_transaction [] = some false ∧
    ∀ (t : TxPayload) (v : VinPayload) (vs : List VinPayload) (ts : List TxPayload),
      t.vin = some (v :: vs) →
      validate_coinbase_transaction (t :: ts) =
        some (v.coinbase.isSome && !(ts.any hasCoinbaseInput)) := by
  refine ⟨rfl, ?_⟩
  intro t v vs ts hvin
  simp only [validate_coinbase_transaction, hvin]
  cases hc : v.coinbase.isSome <;> simp [hc]

/-- Witness for C2's amended statement: a first transaction whose first
input is not coinbase-marked (zero coinbase markers) is rejected. -/
theorem c2_amended_coinbase_check_witness :
    txNoCoinbase.vin = some [vinRegular] ∧
    validate_coinbase_transaction [txNoCoinbase] = some false := by
  refine ⟨rfl, ?_⟩
  have h := c2_amended_coinbase_check.2 txNoCoinbase vinRegular [] [] rfl
  simpa [vinRegular] using h

/-- C3 (code bug).  With no API key configured the transformer is
disabled, and `validate_transformation` then returns
`(True, "LLM validation disabled")` for EVERY payload — it never runs
the Structural Validator's deterministic checks, although
`validate_block_structure` rejects this payload outright.  The
deterministic fallback `_fallback_validation` exists but is reachable
only from the exception handler, not from the disabled path. -/
theorem c3_disabled_path_skips_deterministic_checks :
    llm_transformer_enabled cfgNoKey = false ∧
    validate_transformation (llm_transformer_enabled cfgNoKey) pAllNone =
      (true, "LLM validation disabled") ∧
    (validate_block_structure pAllNone).1 = false ∧
    (validate_block_structure pAllNone).2 ≠ [] := by
  refine ⟨rfl, rfl, by decide, by decide⟩

/-- C8.  The fetch range of one `sync_new_blocks` pass: no fetch happens
when the store height is at least the remote tip; otherwise the range
starts at the store's latest synced height plus one (0 for an empty
store) and is capped at 100 heights inclusive
(`end = min(start + 99, tip)`). -/
theorem c8_sync_range (db : DB) (tip : Int) :
    (∀ h, get_latest_block_height db = some h → tip ≤ h →
      sync_new_blocks_range db tip = none) ∧
    (get_latest_block_height db = none → 0 ≤ tip →
      sync_new_blocks_range db tip = some (0, min 99 tip)) ∧
    (∀ s e, sync_new_blocks_range db tip = some (s, e) →
      s = syncStartHeight (get_latest_block_height db) ∧ e = min (s + 99) tip) := by
  unfold sync_new_blocks_range computeSyncRange
  refine ⟨?_, ?_, ?_⟩
  · intro h hh htip
    rw [hh]
    simp only [syncStartHeight]
    rw [if_pos (by omega)]
  · intro hh htip
    rw [hh]
    simp only [syncStartHeight]
    rw [if_neg (by omega)]
    norm_num
  · intro s e hse
    split at hse
    · simp at hse
    · injection hse with h'
      have h1 : s = syncStartHeight (get_latest_block_height db) :=
        (congrArg Prod.fst h').symm
      have h2 : e = min (syncStartHeight (get_latest_block_height db) + 100 - 1) tip :=
        (congrArg Prod.snd h').symm
      refine ⟨h1, ?_⟩
      rw [h2, h1]
      omega

/-- Witness for C8 on the empty store with tip height 5: the pass starts
at genesis and fetches heights 0..5. -/
theorem c8_sync_range_witness :
    get_latest_block_height emptyDB = none ∧ (0 : Int) ≤ 5 ∧
    sync_new_blocks_range emptyDB 5 = some (0, min 99 5) :=
  ⟨rfl, by norm_num, (c8_sync_range emptyDB 5).2.1 rfl (by norm_num)⟩

/-- C9.  The reorg scan: a failed remote hash fetch for a height is
skipped and the scan continues with the next height (it never triggers
`handle_reorg`); the first height whose remote hash differs from the
stored hash stops the scan and hands that stored hash to
`handle_reorg`; a matching hash continues the scan. -/
theorem c9_reorg_scan (remote : Int → Option String) (h : Int) (dbh : String)
    (rest : List (Int × String)) :
    (remote h = none →
      reorgScan remote ((h, dbh) :: rest) = reorgScan remote rest) ∧
    (∀ nh, remote h = some nh → nh ≠ dbh →
      reorgScan remote ((h, dbh) :: rest) = some dbh) ∧
    (remote h = some dbh →
      reorgScan remote ((h, dbh) :: rest) = reorgScan remote rest) := by
  refine ⟨?_, ?_, ?_⟩
  · intro hr
    simp [reorgScan, hr]
  · intro nh hr hne
    simp [reorgScan, hr, hne]
  · intro hr
    simp [reorgScan, hr]

/-- Witness for C9: a scan over one height whose remote hash differs
reports the stored hash. -/
theorem c9_reorg_scan_witness :
    reorgScan (fun _ => some "other") [((5 : Int), "stored")] = some "stored" :=
  (c9_reorg_scan (fun _ => some "other") 5 "stored" []).2.1 "other" rfl (by decide)

/-- C10.  `block_exists` returns `False` when the underlying query fails,
so a store read failure is indistinguishable at this interface from the
block being absent, and the per-height sync unit then proceeds exactly
as if the block were missing. -/
theorem c10_block_exists_error_is_false (e : String) (hs : String) (db : DB)
    (habs : block_exists_query db hs = false) :
    block_exists (Except.error e) hs = false ∧
    block_exists (Except.ok db) hs = block_exists (Except.error e) hs ∧
    sync_single_block_fetches (Except.error e) hs = true := by
  refine ⟨rfl, ?_, rfl⟩
  simp [block_exists, habs]

/-- Witness for C10 on the empty store. -/
theorem c10_block_exists_error_is_false_witness :
    block_exists_query emptyDB "deadbeef" = false ∧
    (block_exists (Except.error "disk error") "deadbeef" = false ∧
     block_exists (Except.ok emptyDB) "deadbeef" =
       block_exists (Except.error "disk error") "deadbeef" ∧
     sync_single_block_fetches (Except.error "disk error") "deadbeef" = true) :=
  ⟨rfl, c10_block_exists_error_is_false "disk error" "deadbeef" emptyDB rfl⟩

/-- Boolean membership `memS` agrees with list membership. -/
theorem memS_iff {a : String} {L : List String} : memS a L = true ↔ a ∈ L := by
  induction L with
  | nil => simp [memS]
  | cons x xs ih =>
    rw [memS, Bool.or_eq_true, beq_iff_eq, ih, List.mem_cons]
    exact or_congr eq_comm Iff.rfl

/-- A successful `insert_block_atomic` call is a successful body run. -/
theorem insert_true_inv {db : DB} {p : BlockPayload} {d : DB}
    (h : insert_block_atomic db p = (true, d)) :
    insert_block_atomic_body db p = some d := by
  unfold insert_block_atomic at h
  cases hb : insert_block_atomic_body db p
  · rw [hb] at h
    simp at h
  · rw [hb] at h
    simp only [Prod.mk.injEq] at h
    rw [h.2]

/-- A payload that passes `validate_block_structure` has a `tx` list (the
required-field check would otherwise have produced an error). -/
theorem validate_true_tx {p : BlockPayload}
    (hv : (validate_block_structure p).1 = true) : ∃ l, p.tx = some l := by
  cases hl : p.tx with
  | some l => exact ⟨l, rfl⟩
  | none =>
    exfalso
    unfold validate_block_structure at hv
    rw [hl] at hv
    simp at hv

/-- A payload that passes `validate_block_structure` and declares `nTx`
has a `tx` list of exactly that length (the transaction-count check). -/
theorem validate_true_count {p : BlockPayload} {l : List TxPayload} {n : Int}
    (hv : (validate_block_structure p).1 = true)
    (hl : p.tx = some l) (hn : p.nTx = some n) : (l.length : Int) = n := by
  by_contra hne
  unfold validate_block_structure at hv
  rw [hl, hn] at hv
  simp [hne] at hv

/-- Inversion of a successful `insert_block_atomic_body` run into its
stages: validation passed, the hash and height keys were present, the
transaction loop succeeded, the sync cursor was set, and the
consistency verification on the final state answered true. -/
theorem body_some_inv {db : DB} {p : BlockPayload} {d : DB}
    (h : insert_block_atomic_body db p = some d) :
    (validate_block_structure p).1 = true ∧
    ∃ bh ht db2,
      p.hash = some bh ∧ p.height = some ht ∧
      insertTransactions { db with blocks := replaceBlockRow db.blocks (mkBlockRow bh p) }
        bh (p.tx.getD []) = some db2 ∧
      d = { db2 with sync_status := some ⟨ht, bh⟩ } ∧
      verify_block_consistency d bh p = true := by
  unfold insert_block_atomic_body at h
  by_cases hv : (validate_block_structure p).1 = true
  case neg =>
    have hv' : (validate_block_structure p).1 = false := by
      cases hb : (validate_block_structure p).1
      · rfl
      · exact absurd hb hv
    rw [hv'] at h
    simp at h
  case pos =>
    refine ⟨hv, ?_⟩
    rw [hv] at h
    simp only [Bool.not_true, Bool.false_eq_true, if_false] at h
    cases hh : p.hash with
    | none => simp [hh] at h
    | some bh =>
      simp only [hh] at h
      cases hit : insertTransactions
          { db with blocks := replaceBlockRow db.blocks (mkBlockRow bh p) }
          bh (p.tx.getD []) with
      | none => simp [hit] at h
      | some db2 =>
        simp only [hit] at h
        cases hht : p.height with
        | none => simp [hht] at h
        | some ht =>
          simp only [hht] at h
          by_cases hvc : verify_block_consistency
              { db2 with sync_status := some ⟨ht, bh⟩ } bh p = true
          case neg =>
            rw [if_neg hvc] at h
            exact absurd h (by simp)
          case pos =>
            rw [if_pos hvc] at h
            injection h with h'
            exact ⟨bh, ht, db2, rfl, rfl, hit, h'.symm, h' ▸ hvc⟩

/-- C6.  Post-write verification: whenever `insert_block_atomic` commits
(returns success), the number of `transactions` rows persisted for the
payload's hash — the count `_verify_block_consistency` re-reads inside
the same write transaction — equals the payload's declared `nTx`; a
mismatch makes the body abort, and the C1 theorem shows every abort
rolls back to the untouched previous state. -/
theorem c6_committed_count_matches_declared (db : DB) (p : BlockPayload)
    (bh : String) (n : Int) (d : DB)
    (hh : p.hash = some bh) (hn : p.nTx = some n)
    (hins : insert_block_atomic db p = (true, d)) :
    ((d.transactions.filter (fun t => t.block_hash == bh)).length : Int) = n := by
  have hbody := insert_true_inv hins
  obtain ⟨hv, bh', ht, db2, hh', hht, hit, hd, hvc⟩ := body_some_inv hbody
  rw [hh] at hh'
  injection hh' with e
  subst e
  obtain ⟨l, hl⟩ := validate_true_tx hv
  have hcnt := validate_true_count hv hl hn
  unfold verify_block_consistency at hvc
  rw [Bool.and_eq_true] at hvc
  have h2 := hvc.2
  rw [beq_iff_eq, hl] at h2
  simp only [Option.getD_some] at h2
  rw [h2]
  exact hcnt

/-- Witness for C6: the happy-path payload commits and exactly its one
declared transaction is persisted under its hash. -/
theorem c6_committed_count_matches_declared_witness :
    pGood.hash =
      some "aaaaaaaaaaaaaaaaaaaaaaaaaaaaaaaaaaaaaaaaaaaaaaaaaaaaaaaaaaaaaaaa" ∧
    pGood.nTx = some 1 ∧
    (((insert_block_atomic emptyDB pGood).2.transactions.filter
        (fun t => t.block_hash ==
          "aaaaaaaaaaaaaaaaaaaaaaaaaaaaaaaaaaaaaaaaaaaaaaaaaaaaaaaaaaaaaaaa")).length
      : Int) = 1 :=
  ⟨rfl, rfl,
    c6_committed_count_matches_declared emptyDB pGood
      "aaaaaaaaaaaaaaaaaaaaaaaaaaaaaaaaaaaaaaaaaaaaaaaaaaaaaaaaaaaaaaaa" 1
      (insert_block_atomic emptyDB pGood).2 rfl rfl (by decide)⟩

/-- Filtering twice with the same predicate filters once. -/
theorem filter_idem {α : Type} (p : α → Bool) (l : List α) :
    (l.filter p).filter p = l.filter p := by
  rw [List.filter_filter]
  exact List.filter_congr fun a _ => Bool.and_self (p a)

/-- `insertTransactions` never touches the `blocks` table or the sync
cursor. -/
theorem insertTransactions_blocks_sync :
    ∀ (ts : List TxPayload) (db : DB) (bh : String) (d : DB),
      insertTransactions db bh ts = some d →
      d.blocks = db.blocks ∧ d.sync_status = db.sync_status := by
  intro ts
  induction ts with
  | nil =>
    intro db bh d h
    simp only [insertTransactions, Option.some.injEq] at h
    rw [← h]
    exact ⟨rfl, rfl⟩
  | cons t ts ih =>
    intro db bh d h
    simp only [insertTransactions] at h
    cases htid : t.txid with
    | none => simp [insertTransaction, htid] at h
    | some tid =>
      simp only [insertTransaction, htid] at h
      have hres := ih _ bh d h
      exact ⟨hres.1, hres.2⟩

/-- Characterization of one full pass of the transaction loop: with
present and pairwise-distinct txids, the pass replaces exactly the rows
whose `txid` occurs in the payload, appends the payload's transaction
rows in order, and appends the payload's input and output rows. -/
theorem insertTransactions_eq (bh : String) :
    ∀ (ts : List TxPayload) (db : DB),
      (∀ t ∈ ts, t.txid.isSome = true) →
      (txidsOf ts).Nodup →
      insertTransactions db bh ts = some
        { db with
          transactions :=
            db.transactions.filter (fun r => !(memS r.txid (txidsOf ts))) ++ txRowsOf bh ts,
          transaction_inputs := db.transaction_inputs ++ inputRowsOfTxs ts,
          transaction_outputs := db.transaction_outputs ++ outputRowsOfTxs ts } := by
  intro ts
  induction ts with
  | nil =>
    intro db _ _
    simp [insertTransactions, txidsOf, txRowsOf, inputRowsOfTxs, outputRowsOfTxs, memS]
  | cons t ts ih =>
    intro db hsome hnodup
    obtain ⟨tid, htid⟩ := Option.isSome_iff_exists.mp (hsome t (List.mem_cons_self t ts))
    have htids : txidsOf (t :: ts) = tid :: txidsOf ts := by
      simp [txidsOf, List.filterMap_cons, htid]
    rw [htids] at hnodup
    have hnotin : tid ∉ txidsOf ts := (List.nodup_cons.mp hnodup).1
    have hnd : (txidsOf ts).Nodup := (List.nodup_cons.mp hnodup).2
    have hsome' : ∀ t' ∈ ts, t'.txid.isSome = true :=
      fun t' ht' => hsome t' (List.mem_cons_of_mem t ht')
    have hmf : memS tid (txidsOf ts) = false := by
      cases hmm : memS tid (txidsOf ts)
      · rfl
      · exact absurd (memS_iff.mp hmm) hnotin
    simp only [insertTransactions, insertTransaction, htid]
    refine (ih _ hsome' hnd).trans ?_
    refine congrArg some ?_
    refine DB.ext rfl ?_ ?_ ?_ rfl
    · rw [htids, List.filter_append, List.filter_filter]
      have hsing : [mkTxRow bh tid t].filter (fun r => !(memS r.txid (txidsOf ts))) =
          [mkTxRow bh tid t] := by
        simp [List.filter, mkTxRow, hmf]
      rw [hsing]
      have hrows : txRowsOf bh (t :: ts) = mkTxRow bh tid t :: txRowsOf bh ts := by
        simp [txRowsOf, List.filterMap_cons, htid]
      rw [hrows]
      have hpt : ∀ r ∈ db.transactions,
          ((!(memS r.txid (txidsOf ts))) && (!(r.txid == tid))) =
            (!(memS r.txid (tid :: txidsOf ts))) := by
        intro r _
        cases hrt : (r.txid == tid) with
        | true =>
          have he : r.txid = tid := eq_of_beq hrt
          rw [he]
          simp [memS]
        | false =>
          have hne : tid ≠ r.txid := Ne.symm (beq_eq_false_iff_ne.mp hrt)
          simp [memS, Bool.not_or, beq_eq_false_iff_ne.mpr hne, hrt]
      rw [List.filter_congr hpt]
      simp [List.append_assoc]
    · simp [inputRowsOfTxs, htid, List.append_assoc]
    · simp [outputRowsOfTxs, htid, List.append_assoc]

/-- Every row a pass writes into `transactions` carries a txid declared by
the payload. -/
theorem txRowsOf_txid_mem {bh : String} {ts : List TxPayload} {r : TxRow}
    (hr : r ∈ txRowsOf bh ts) : r.txid ∈ txidsOf ts := by
  unfold txRowsOf at hr
  rw [List.mem_filterMap] at hr
  obtain ⟨t, htmem, hmap⟩ := hr
  cases htid : t.txid with
  | none => rw [htid] at hmap; simp at hmap
  | some tid =>
    rw [htid, Option.map_some'] at hmap
    injection hmap with hmap
    rw [← hmap]
    exact List.mem_filterMap.mpr ⟨t, htmem, htid⟩

/-- Every row a pass writes into `transactions` is owned by the inserted
block's hash. -/
theorem txRowsOf_block_hash {bh : String} {ts : List TxPayload} {r : TxRow}
    (hr : r ∈ txRowsOf bh ts) : r.block_hash = bh := by
  unfold txRowsOf at hr
  rw [List.mem_filterMap] at hr
  obtain ⟨t, _, hmap⟩ := hr
  cases htid : t.txid with
  | none => rw [htid] at hmap; simp at hmap
  | some tid =>
    rw [htid, Option.map_some'] at hmap
    injection hmap with hmap
    rw [← hmap]
    rfl

/-- With all txids present, one pass writes exactly one `transactions` row
per payload transaction. -/
theorem txRowsOf_length (bh : String) :
    ∀ ts : List TxPayload, (∀ t ∈ ts, t.txid.isSome = true) →
      (txRowsOf bh ts).length = ts.length := by
  intro ts
  induction ts with
  | nil => intro; rfl
  | cons t ts ih =>
    intro hsome
    obtain ⟨tid, htid⟩ := Option.isSome_iff_exists.mp (hsome t (List.mem_cons_self t ts))
    have := ih fun t' ht' => hsome t' (List.mem_cons_of_mem t ht')
    simp [txRowsOf, List.filterMap_cons, htid] at this ⊢
    exact this

/-- Replacing into `blocks` twice with the same row is the same as
replacing once. -/
theorem replaceBlockRow_idem (bs : List BlockRow) (row : BlockRow) :
    replaceBlockRow (replaceBlockRow bs row) row = replaceBlockRow bs row := by
  unfold replaceBlockRow
  rw [List.filter_append]
  have h1 : [row].filter (fun b => !((b.hash == row.hash) || heightCollides b row)) = [] := by
    simp [List.filter, beq_self_eq_true]
  rw [h1, List.append_nil, List.filter_filter]
  have h2 : ∀ b ∈ bs,
      ((!((b.hash == row.hash) || heightCollides b row)) &&
        (!((b.hash == row.hash) || heightCollides b row))) =
      (!((b.hash == row.hash) || heightCollides b row)) :=
    fun b _ => Bool.and_self _
  rw [List.filter_congr h2]

/-- After a replace, exactly one `blocks` row carries the replaced hash. -/
theorem replaceBlockRow_count (bs : List BlockRow) (row : BlockRow) (h : String)
    (hrow : row.hash = h) :
    ((replaceBlockRow bs row).filter (fun b => b.hash == h)).length = 1 := by
  unfold replaceBlockRow
  rw [List.filter_append, List.filter_filter]
  have h1 : bs.filter (fun b =>
      (b.hash == h) && (!((b.hash == row.hash) || heightCollides b row))) = [] := by
    rw [List.filter_eq_nil_iff]
    intro b _
    cases hbh : b.hash == h
    · simp
    · simp [hrow, hbh]
  rw [h1]
  simp [List.filter, hrow, beq_self_eq_true]

/-- C4 amended.  Re-inserting the same valid payload commits again and
reproduces the same `blocks` rows, `transactions` rows and sync cursor
(upsert semantics on those tables, ignoring timestamp bookkeeping
columns), but appends a second copy of every `transaction_inputs` and
`transaction_outputs` row, because child rows are written with plain
`INSERT` under fresh AUTOINCREMENT ids and the off-by-default foreign
keys never cascade the `REPLACE`. -/
theorem c4_amended_second_insert (db : DB) (p : BlockPayload) (l : List TxPayload)
    (db1 : DB)
    (hptx : p.tx = some l)
    (hsome : ∀ t ∈ l, t.txid.isSome = true)
    (hnd : (txidsOf l).Nodup)
    (hins : insert_block_atomic db p = (true, db1)) :
    insert_block_atomic db1 p = (true,
      { db1 with
        transaction_inputs := db1.transaction_inputs ++ inputRowsOfTxs l,
        transaction_outputs := db1.transaction_outputs ++ outputRowsOfTxs l }) := by
  have hbody := insert_true_inv hins
  obtain ⟨hv, bh, ht, db2, hh, hht, hit, hd1, hvc1⟩ := body_some_inv hbody
  rw [hptx] at hit
  simp only [Option.getD_some] at hit
  rw [insertTransactions_eq bh l _ hsome hnd] at hit
  injection hit with hdb2
  have hbl : db1.blocks = replaceBlockRow db.blocks (mkBlockRow bh p) := by
    rw [hd1, ← hdb2]
  have htr1 : db1.transactions =
      db.transactions.filter (fun r => !(memS r.txid (txidsOf l))) ++ txRowsOf bh l := by
    rw [hd1, ← hdb2]
  have hsy1 : db1.sync_status = some ⟨ht, bh⟩ := by rw [hd1]
  have hR0 : (txRowsOf bh l).filter (fun r => !(memS r.txid (txidsOf l))) = [] := by
    rw [List.filter_eq_nil_iff]
    intro r hr
    simp [memS_iff.mpr (txRowsOf_txid_mem hr)]
  have htr : db1.transactions.filter (fun r => !(memS r.txid (txidsOf l))) ++ txRowsOf bh l =
      db1.transactions := by
    rw [htr1, List.filter_append, filter_idem, hR0, List.append_nil]
  have hrec : { db1 with blocks := replaceBlockRow db1.blocks (mkBlockRow bh p) } = db1 := by
    refine DB.ext ?_ rfl rfl rfl rfl
    rw [hbl]
    exact replaceBlockRow_idem _ _
  have hbody2 : insert_block_atomic_body db1 p = some
      { db1 with
        transaction_inputs := db1.transaction_inputs ++ inputRowsOfTxs l,
        transaction_outputs := db1.transaction_outputs ++ outputRowsOfTxs l } := by
    unfold insert_block_atomic_body
    rw [hv]
    simp only [Bool.not_true, Bool.false_eq_true, if_false]
    simp only [hh]
    rw [hptx]
    simp only [Option.getD_some]
    rw [hrec]
    rw [insertTransactions_eq bh l db1 hsome hnd]
    simp only [hht]
    rw [htr]
    have hver : verify_block_consistency
        { db1 with
          transaction_inputs := db1.transaction_inputs ++ inputRowsOfTxs l,
          transaction_outputs := db1.transaction_outputs ++ outputRowsOfTxs l,
          sync_status := some ⟨ht, bh⟩ } bh p = true := by
      unfold verify_block_consistency
      rw [Bool.and_eq_true]
      constructor
      · show ((db1.blocks.filter (fun b => b.hash == bh)).length == 1) = true
        rw [hbl, replaceBlockRow_count db.blocks (mkBlockRow bh p) bh rfl]
        rfl
      · show ((db1.transactions.filter (fun t => t.block_hash == bh)).length ==
            (p.tx.getD []).length) = true
        unfold verify_block_consistency at hvc1
        rw [Bool.and_eq_true] at hvc1
        exact hvc1.2
    rw [if_pos hver]
    exact congrArg some (DB.ext rfl rfl rfl rfl hsy1.symm)
  unfold insert_block_atomic
  rw [hbody2]

/-- C4 counterexample.  Inserting the valid happy-path payload twice does
NOT leave the store in the state one insert produces: the second commit
duplicates the child rows (2 input rows instead of 1), refuting the
claim's "same final state / no duplicate child rows". -/
theorem c4_counterexample :
    (insert_block_atomic emptyDB pGood).1 = true ∧
    (insert_block_atomic (insert_block_atomic emptyDB pGood).2 pGood).1 = true ∧
    (insert_block_atomic (insert_block_atomic emptyDB pGood).2 pGood).2 ≠
      (insert_block_atomic emptyDB pGood).2 ∧
    (insert_block_atomic (insert_block_atomic emptyDB pGood).2
        pGood).2.transaction_inputs.length = 2 ∧
    (insert_block_atomic emptyDB pGood).2.transaction_inputs.length = 1 :=
  ⟨by decide, by decide, by decide, by decide, by decide⟩

/-- Witness for C4's amended statement at the happy-path payload: the
second insert succeeds and appends exactly one more copy of the
payload's input and output rows while every other table is unchanged. -/
theorem c4_amended_second_insert_witness :
    insert_block_atomic (insert_block_atomic emptyDB pGood).2 pGood =
      (true,
        { (insert_block_atomic emptyDB pGood).2 with
          transaction_inputs :=
            (insert_block_atomic emptyDB pGood).2.transaction_inputs ++
              inputRowsOfTxs [txCoinbase],
          transaction_outputs :=
            (insert_block_atomic emptyDB pGood).2.transaction_outputs ++
              outputRowsOfTxs [txCoinbase] }) :=
  c4_amended_second_insert emptyDB pGood [txCoinbase] _ rfl (by decide) (by decide)
    (by decide)

/-- C5.  `handle_reorg` invoked with a stored hash whose height is `h0`,
on a store of all-synced blocks with pairwise-distinct hashes: it
returns success, flips to `orphaned` exactly the blocks whose height is
`≥ h0` (every lower block keeps its row unchanged, hence stays
`synced`), cascades `orphaned` to exactly the transactions owned by
those blocks, and deletes nothing — inputs and outputs are untouched
and both row counts are preserved.  The claim's scenario is the
instance: heights H-5..H stored, hash at H-2 passed, heights ≥ H-2
orphaned, H-3 and below still synced. -/
theorem c5_handle_reorg_orphans_suffix (db : DB) (target : String) (b0 : BlockRow)
    (h0 : Int)
    (hfind : db.blocks.find? (fun b => b.hash == target) = some b0)
    (hh0 : b0.height = some h0)
    (hnd : (db.blocks.map BlockRow.hash).Nodup)
    (hsync : ∀ b ∈ db.blocks, b.sync_status = "synced") :
    (handle_reorg db target).1 = true ∧
    (handle_reorg db target).2.blocks =
      db.blocks.map (fun b => if heightGeB b h0 then orphanBlock b else b) ∧
    (handle_reorg db target).2.transactions =
      db.transactions.map (fun t =>
        if db.blocks.any (fun b => (b.hash == t.block_hash) && heightGeB b h0)
        then orphanTx t else t) ∧
    (handle_reorg db target).2.transaction_inputs = db.transaction_inputs ∧
    (handle_reorg db target).2.transaction_outputs = db.transaction_outputs ∧
    (handle_reorg db target).2.sync_status = db.sync_status ∧
    (handle_reorg db target).2.blocks.length = db.blocks.length ∧
    (handle_reorg db target).2.transactions.length = db.transactions.length := by
  have hb0mem : b0 ∈ db.blocks := List.mem_of_find?_eq_some hfind
  have hb0hash : b0.hash = target := by
    have h := List.find?_some hfind
    simp only [beq_iff_eq] at h
    exact h
  refine ⟨rfl, ?_, ?_, rfl, rfl, rfl, ?_, ?_⟩
  · simp only [handle_reorg, hfind, hh0]
    refine List.map_congr_left ?_
    intro b hb
    cases hbt : b.hash == target with
    | false => rw [Bool.false_or]
    | true =>
      rw [Bool.true_or]
      have hbeq : b = b0 :=
        List.inj_on_of_nodup_map hnd hb hb0mem (by rw [eq_of_beq hbt, hb0hash])
      have hge : heightGeB b h0 = true := by
        rw [hbeq]
        unfold heightGeB
        rw [hh0]
        simp
      rw [hge]
  · simp only [handle_reorg, hfind, hh0]
    refine List.map_congr_left ?_
    intro t _
    congr 1
    refine congrArg (fun c : Bool => c = true) ?_
    rw [List.any_map]
    refine list_any_congr ?_
    intro b hb
    simp only [Function.comp_apply]
    have hcnd : ((b.hash == target) || heightGeB b h0) = heightGeB b h0 := by
      cases hbt : b.hash == target with
      | false => rw [Bool.false_or]
      | true =>
        rw [Bool.true_or]
        have hbeq : b = b0 :=
          List.inj_on_of_nodup_map hnd hb hb0mem (by rw [eq_of_beq hbt, hb0hash])
        rw [hbeq]
        unfold heightGeB
        rw [hh0]
        simp
    rw [hcnd]
    cases hge : heightGeB b h0 with
    | false =>
      have hso : ("synced" == "orphaned") = false := rfl
      simp [hsync b hb, hso]
    | true =>
      simp [orphanBlock, Bool.and_comm]
  · simp [handle_reorg]
  · simp [handle_reorg]

/-- Witness for C5: the six-block store (heights 0..5) with the hash
stored at height 3 = H-2. -/
theorem c5_handle_reorg_orphans_suffix_witness :
    (handle_reorg dbSixBlocks "h3").1 = true ∧
    (handle_reorg dbSixBlocks "h3").2.blocks =
      dbSixBlocks.blocks.map (fun b => if heightGeB b 3 then orphanBlock b else b) ∧
    (handle_reorg dbSixBlocks "h3").2.transactions =
      dbSixBlocks.transactions.map (fun t =>
        if dbSixBlocks.blocks.any (fun b => (b.hash == t.block_hash) && heightGeB b 3)
        then orphanTx t else t) ∧
    (handle_reorg dbSixBlocks "h3").2.transaction_inputs =
      dbSixBlocks.transaction_inputs ∧
    (handle_reorg dbSixBlocks "h3").2.transaction_outputs =
      dbSixBlocks.transaction_outputs ∧
    (handle_reorg dbSixBlocks "h3").2.sync_status = dbSixBlocks.sync_status ∧
    (handle_reorg dbSixBlocks "h3").2.blocks.length = dbSixBlocks.blocks.length ∧
    (handle_reorg dbSixBlocks "h3").2.transactions.length =
      dbSixBlocks.transactions.length :=
  c5_handle_reorg_orphans_suffix dbSixBlocks "h3" (mkSyncedBlock "h3" 3) 3
    (by decide) rfl (by decide) (by decide)

/-- SQL `MAX` returns an element of the column. -/
theorem listMaxO_mem : ∀ {l : List Int} {m : Int}, listMaxO l = some m → m ∈ l := by
  intro l
  induction l with
  | nil => intro m h; simp [listMaxO] at h
  | cons x xs ih =>
    intro m h
    unfold listMaxO at h
    cases hx : listMaxO xs with
    | none =>
      rw [hx] at h
      injection h with h
      rw [← h]
      exact List.mem_cons_self x xs
    | some k =>
      rw [hx] at h
      injection h with h
      rcases max_choice x k with hm | hm
      · rw [← h, hm]
        exact List.mem_cons_self x xs
      · rw [← h, hm]
        exact List.mem_cons_of_mem x (ih hx)

/-- SQL `MAX` of a column containing `M` and bounded by `M` is `M`. -/
theorem listMaxO_eq_of_mem_ub {M : Int} :
    ∀ {l : List Int}, M ∈ l → (∀ x ∈ l, x ≤ M) → listMaxO l = some M := by
  intro l
  induction l with
  | nil => intro hmem _; simp at hmem
  | cons x xs ih =>
    intro hmem hub
    unfold listMaxO
    rcases List.mem_cons.mp hmem with hMx | hM
    · cases hx : listMaxO xs with
      | none => rw [hMx]
      | some k =>
        have hk : k ≤ M := hub k (List.mem_cons_of_mem x (listMaxO_mem hx))
        have hmax : max x k = x := max_eq_left (hMx ▸ hk)
        show some (max x k) = some M
        rw [hmax, hMx]
    · have hxub : x ≤ M := hub x (List.mem_cons_self x xs)
      have hxs := ih hM fun y hy => hub y (List.mem_cons_of_mem x hy)
      rw [hxs]
      show some (max x M) = some M
      rw [max_eq_right hxub]

/-- A successful insert leaves `blocks` as a replace of the previous
`blocks` and sets the sync cursor to this payload's height and hash. -/
theorem insert_true_blocks_cursor (db : DB) (p : BlockPayload) (d : DB)
    (hins : insert_block_atomic db p = (true, d)) :
    ∃ bh ht, p.hash = some bh ∧ p.height = some ht ∧
      d.blocks = replaceBlockRow db.blocks (mkBlockRow bh p) ∧
      d.sync_status = some ⟨ht, bh⟩ := by
  obtain ⟨_, bh, ht, dbA, hh, hht, hit, hd, _⟩ := body_some_inv (insert_true_inv hins)
  have hbs := insertTransactions_blocks_sync _ _ _ _ hit
  refine ⟨bh, ht, hh, hht, ?_, by rw [hd]⟩
  rw [hd]
  exact hbs.1

/-- C7 amended.  The sync cursor `sync_status.last_sync_height` holds the
height of the LAST committed block, not the maximum; but
`get_latest_block_height` — the value the orchestrator actually reads
to compute the next fetch range — is `MAX(height)` over synced blocks,
so after two successful inserts at two different heights (in either
commit order) it returns the greater of the two. -/
theorem c7_amended_cursor_vs_max (db : DB) (p1 p2 : BlockPayload) (h1 h2 : Int)
    (hs1 hs2 : String) (db1 db2 : DB)
    (hh1 : p1.height = some h1) (hh2 : p2.height = some h2)
    (hph1 : p1.hash = some hs1) (hph2 : p2.hash = some hs2)
    (hsne : hs1 ≠ hs2) (hhne : h1 ≠ h2)
    (hub : ∀ b ∈ db.blocks, ∀ hv, b.height = some hv → hv ≤ max h1 h2)
    (hins1 : insert_block_atomic db p1 = (true, db1))
    (hins2 : insert_block_atomic db1 p2 = (true, db2)) :
    db2.sync_status = some ⟨h2, hs2⟩ ∧
    get_latest_block_height db2 = some (max h1 h2) := by
  obtain ⟨bh1, ht1, hph1', hh1', hbl1, hsy1⟩ := insert_true_blocks_cursor db p1 db1 hins1
  obtain ⟨bh2, ht2, hph2', hh2', hbl2, hsy2⟩ := insert_true_blocks_cursor db1 p2 db2 hins2
  rw [hph1] at hph1'
  injection hph1' with e1
  subst e1
  rw [hh1] at hh1'
  injection hh1' with e2
  subst e2
  rw [hph2] at hph2'
  injection hph2' with e3
  subst e3
  rw [hh2] at hh2'
  injection hh2' with e4
  subst e4
  refine ⟨hsy2, ?_⟩
  have hub2 : ∀ b ∈ db2.blocks, ∀ hv, b.height = some hv → hv ≤ max h1 h2 := by
    intro b hb hv hbh
    rw [hbl2] at hb
    unfold replaceBlockRow at hb
    rcases List.mem_append.mp hb with hb' | hb'
    · have hbdb1 : b ∈ db1.blocks := (List.mem_filter.mp hb').1
      rw [hbl1] at hbdb1
      unfold replaceBlockRow at hbdb1
      rcases List.mem_append.mp hbdb1 with hb'' | hb''
      · exact hub b (List.mem_filter.mp hb'').1 hv hbh
      · have hbeq : b = mkBlockRow hs1 p1 := List.mem_singleton.mp hb''
        rw [hbeq] at hbh
        have hph : p1.height = some hv := hbh
        rw [hh1] at hph
        injection hph with e
        rw [← e]
        exact le_max_left h1 h2
    · have hbeq : b = mkBlockRow hs2 p2 := List.mem_singleton.mp hb'
      rw [hbeq] at hbh
      have hph : p2.height = some hv := hbh
      rw [hh2] at hph
      injection hph with e
      rw [← e]
      exact le_max_right h1 h2
  have hwit : ∃ b, b ∈ db2.blocks ∧ b.sync_status = "synced" ∧
      b.height = some (max h1 h2) := by
    rcases le_total h1 h2 with hle | hle
    · refine ⟨mkBlockRow hs2 p2, ?_, rfl, ?_⟩
      · rw [hbl2]
        unfold replaceBlockRow
        exact List.mem_append.mpr (Or.inr (List.mem_singleton.mpr rfl))
      · show p2.height = some (max h1 h2)
        rw [hh2, max_eq_right hle]
    · refine ⟨mkBlockRow hs1 p1, ?_, rfl, ?_⟩
      · rw [hbl2]
        unfold replaceBlockRow
        refine List.mem_append.mpr (Or.inl (List.mem_filter.mpr ⟨?_, ?_⟩))
        · rw [hbl1]
          unfold replaceBlockRow
          exact List.mem_append.mpr (Or.inr (List.mem_singleton.mpr rfl))
        · have hx : ((mkBlockRow hs1 p1).hash == (mkBlockRow hs2 p2).hash) = false :=
            beq_eq_false_iff_ne.mpr hsne
          have hy : heightCollides (mkBlockRow hs1 p1) (mkBlockRow hs2 p2) = false := by
            unfold heightCollides
            rw [show (mkBlockRow hs1 p1).height = some h1 from hh1,
                show (mkBlockRow hs2 p2).height = some h2 from hh2]
            show (h1 == h2) = false
            exact beq_eq_false_iff_ne.mpr hhne
          rw [hx, hy]
          rfl
      · show p1.height = some (max h1 h2)
        rw [hh1, max_eq_left hle]
  obtain ⟨b, hbmem, hbsync, hbheight⟩ := hwit
  unfold get_latest_block_height
  apply listMaxO_eq_of_mem_ub
  · unfold syncedHeights
    refine List.mem_filterMap.mpr ⟨b, List.mem_filter.mpr ⟨hbmem, ?_⟩, hbheight⟩
    rw [hbsync]
    rfl
  · intro x hx
    unfold syncedHeights at hx
    obtain ⟨b', hb'f, hb'h⟩ := List.mem_filterMap.mp hx
    exact hub2 b' (List.mem_filter.mp hb'f).1 x hb'h

/-- C7 counterexample.  Insert height 5, then height 3 (the out-of-order
commit the spec explicitly allows): the sync cursor
`sync_status.last_sync_height` ends at 3, the height of the LAST
committed block, while the maximum height among synced blocks is 5 —
the cursor does not equal the maximum. -/
theorem c7_counterexample :
    (insert_block_atomic emptyDB pHeight5).1 = true ∧
    (insert_block_atomic (insert_block_atomic emptyDB pHeight5).2 pHeight3).1 = true ∧
    ((insert_block_atomic (insert_block_atomic emptyDB pHeight5).2
        pHeight3).2.sync_status.map SyncStatusRow.last_sync_height) = some 3 ∧
    get_latest_block_height
      (insert_block_atomic (insert_block_atomic emptyDB pHeight5).2 pHeight3).2 =
      some 5 ∧
    ((insert_block_atomic (insert_block_atomic emptyDB pHeight5).2
        pHeight3).2.sync_status.map SyncStatusRow.last_sync_height) ≠
      get_latest_block_height
        (insert_block_atomic (insert_block_atomic emptyDB pHeight5).2 pHeight3).2 :=
  ⟨by decide, by decide, by decide, by decide, by decide⟩

/-- Witness for C7's amended statement: heights 5 then 3 from the empty
store — the cursor records (3, hash of the height-3 block) while
`get_latest_block_height` answers `max 5 3 = 5`. -/
theorem c7_amended_cursor_vs_max_witness :
    (insert_block_atomic (insert_block_atomic emptyDB pHeight5).2 pHeight3).2.sync_status =
      some ⟨3, "eeeeeeeeeeeeeeeeeeeeeeeeeeeeeeeeeeeeeeeeeeeeeeeeeeeeeeeeeeeeeeee"⟩ ∧
    get_latest_block_height
      (insert_block_atomic (insert_block_atomic emptyDB pHeight5).2 pHeight3).2 =
      some (max 5 3) :=
  c7_amended_cursor_vs_max emptyDB pHeight5 pHeight3 5 3
    "cccccccccccccccccccccccccccccccccccccccccccccccccccccccccccccccc"
    "eeeeeeeeeeeeeeeeeeeeeeeeeeeeeeeeeeeeeeeeeeeeeeeeeeeeeeeeeeeeeeee"
    (insert_block_atomic emptyDB pHeight5).2
    (insert_block_atomic (insert_block_atomic emptyDB pHeight5).2 pHeight3).2
    rfl rfl rfl rfl (by decide) (by decide)
    (by intro b hb; simp [emptyDB] at hb)
    (by decide) (by decide)
